import Mathlib

/-! Verification development for the animated-image resizing core of
`django_resized/image_processing.py`: a shallow embedding of the
disposal-mode analyser (`analyseImage`), the canvas compositor
(`clone_gif_thumbnails`, `thumbnails`, `cropped_thumbnails`), the geometric
transforms (the codec library's `thumbnail` size computation and `crop`),
the sequence encoder (the `save(...)` calls of
`AnimatedGifImageProcessingFactory`) and the format dispatcher
(`make_factory_for_image_processing`), together with theorems about the
specified properties. -/

set_option maxHeartbeats 1000000
set_option maxRecDepth 10000
set_option linter.unusedVariables false

/-- An RGBA pixel value.  Channels are 8-bit (0..255) in the source codec. -/
structure RGBA where
  r : ℕ
  g : ℕ
  b : ℕ
  a : ℕ
deriving DecidableEq

/-- The fully transparent pixel: content of a freshly allocated RGBA canvas
(`Image.new('RGBA', size)`). -/
def RGBA.clear : RGBA := ⟨0, 0, 0, 0⟩

/-- All four channels fit in one byte, as they do in the codec's buffers. -/
def RGBA.Bounded (c : RGBA) : Prop := c.r ≤ 255 ∧ c.g ≤ 255 ∧ c.b ≤ 255 ∧ c.a ≤ 255

instance (c : RGBA) : Decidable c.Bounded := by
  unfold RGBA.Bounded
  exact inferInstance

/-- Pillow's `MULDIV255(a, b, tmp)` macro: `tmp = a*b + 128; ((tmp >> 8) + tmp) >> 8`,
the exact 8-bit rounding of `a*b/255` used by masked paste. -/
def muldiv255 (x m : ℕ) : ℕ :=
  ((x * m + 128) / 256 + (x * m + 128)) / 256

/-- Pillow's `BLEND(mask, in1, in2)` macro: `MULDIV255(in1, 255-mask) + MULDIV255(in2, mask)`;
for an `RGBA` mask image the mask value is the source's alpha band. -/
def blend (m d s : ℕ) : ℕ := muldiv255 d (255 - m) + muldiv255 s m

/-- Channelwise blend of a destination and a source pixel under mask value `m`. -/
def blendPx (m : ℕ) (d s : RGBA) : RGBA :=
  ⟨blend m d.r s.r, blend m d.g s.g, blend m d.b s.b, blend m d.a s.a⟩

/-- A canvas-sized pixel grid (pixels are meaningful at coordinates inside the
declared canvas size). -/
abbrev Grid := ℕ → ℕ → RGBA

/-- The grid of a freshly allocated transparent RGBA canvas. -/
def clearGrid : Grid := fun _ _ => RGBA.clear

/-- `dest.paste(src, (0, 0), src_rgba)`: masked full-canvas paste where the mask
is the source's own alpha band, blending every channel (Pillow semantics:
mask 255 copies the source, mask 0 keeps the destination, values in between mix). -/
def pasteMask (dest src : Grid) : Grid :=
  fun x y => blendPx (src x y).a (dest x y) (src x y)

/-- A color palette, as returned by `getpalette()`: index to RGBA color.
The alpha carried per entry models the palette together with the frame's
transparency index (`convert('RGBA')` resolves both at once). -/
abbrev Pal := List RGBA

/-- Palette lookup; indices beyond the palette resolve to the zero color. -/
def palGet (p : Pal) (i : ℕ) : RGBA := p.getD i RGBA.clear

/-- A tile extent box as stored in `im.tile[0][1]`: corners `(x0, y0, x1, y1)`. -/
structure Box where
  x0 : ℕ
  y0 : ℕ
  x1 : ℕ
  y1 : ℕ
deriving DecidableEq

/-- A decoded raw frame as the surrounding codec hands it to this core:
a canvas-sized buffer of palette indices, an optional local palette
(`getpalette()`), and the first tile's extent box (`im.tile`), `none` when
the tile list is empty. -/
structure RawFrame where
  pal : Option Pal
  pix : ℕ → ℕ → ℕ
  tile : Option Box

/-- Animation-level metadata (`img.info`): optional per-frame delay list and
optional loop count. -/
structure ImgInfo where
  duration : Option (List ℕ)
  loop : Option ℕ
deriving DecidableEq

/-- A decoded multi-frame image handle: canvas size, the palette `getpalette()`
returns at the initial position, the frame sequence, metadata and the format tag. -/
structure AnimImage where
  width : ℕ
  height : ℕ
  globalPal : Pal
  frames : List RawFrame
  info : ImgInfo
  format : String

/-- The palette a frame is converted with after the loop's
`if not frame.getpalette(): frame.putpalette(p)` step: the frame's own palette
when present and non-empty, else the animation's global palette. -/
def effPal (g : Pal) (f : RawFrame) : Pal :=
  match f.pal with
  | some p => if p.isEmpty then g else p
  | none => g

/-- `frame.convert('RGBA')` after the palette fix-up: resolve every index
through the effective palette. -/
def convFrame (g : Pal) (f : RawFrame) : Grid :=
  fun x y => palGet (effPal g f) (f.pix x y)

/-- The scan loop of `analyseImage`: walk the frames in order; at each frame with
a non-empty tile list take `tile[1][2:]` — the box's lower-right corner
`(x1, y1)` — and compare it to the canvas size; the first mismatch yields
`'partial'` and stops the scan, reaching the end of the sequence (the decoder's
`EOFError`) yields `'full'`. -/
def analyseFrames (sz : ℕ × ℕ) : List RawFrame → String
  | [] => "full"
  | f :: fs =>
    match f.tile with
    | some b => if (b.x1, b.y1) ≠ sz then "partial" else analyseFrames sz fs
    | none => analyseFrames sz fs

/-- `analyseImage(im)['mode']`. -/
def analyseImage (img : AnimImage) : String :=
  analyseFrames (img.width, img.height) img.frames

/-- The true width/height of a tile's update region (its box is corner-based). -/
def boxDims (b : Box) : ℕ × ℕ := (b.x1 - b.x0, b.y1 - b.y0)

/-- Membership of a canvas coordinate in a frame's declared update region. -/
def inRegion (t : Option Box) (x y : ℕ) : Prop :=
  match t with
  | some b => b.x0 ≤ x ∧ x < b.x1 ∧ b.y0 ≤ y ∧ y < b.y1
  | none => False

instance (t : Option Box) (x y : ℕ) : Decidable (inRegion t x y) :=
  match t with
  | some _ => instDecidableAnd
  | none => instDecidableFalse

/-- `new_frame = Image.new('RGBA', img.size); if mode == 'partial': new_frame.paste(last_frame)`:
the buffer a frame is composited onto — the running canvas in partial mode, a
transparent canvas in full mode. -/
def newFrameBase (mode : String) (last : Grid) : Grid :=
  if mode = "partial" then last else clearGrid

/-- One iteration of the compositing loop body (before any geometric transform):
paste the base, then paste the converted frame with its own alpha as mask. -/
def compositeStep (g : Pal) (mode : String) (last : Grid) (f : RawFrame) : Grid :=
  pasteMask (newFrameBase mode last) (convFrame g f)

/-- The compositing loop: threads the running `last_frame` canvas through the
frame sequence and collects each composited frame. -/
def compositeList (g : Pal) (mode : String) : Grid → List RawFrame → List Grid
  | _, [] => []
  | last, f :: fs =>
    let nf := compositeStep g mode last f
    nf :: compositeList g mode nf fs

/-- `last_frame = img.convert('RGBA')`: the initial running canvas is the RGBA
conversion of the image's current (first) frame under the image's palette. -/
def initCanvas (img : AnimImage) : Grid :=
  match img.frames with
  | [] => clearGrid
  | f :: _ => fun x y => palGet img.globalPal (f.pix x y)

/-- `clone_gif_thumbnails(img)`: analyse the mode, then composite every frame,
emitting the full-canvas composited sequence unchanged. -/
def clone_gif_thumbnails (img : AnimImage) : List Grid :=
  compositeList img.globalPal (analyseImage img) (initCanvas img) img.frames

/-- Modelled from the spec: the compositor exactly as `clone_gif_thumbnails`
but with the running canvas "initialized to a transparent canvas of the
declared size", for comparison with the code's initialization. -/
def clone_gif_thumbnails_spec_init (img : AnimImage) : List Grid :=
  compositeList img.globalPal (analyseImage img) clearGrid img.frames

/-- A standalone frame buffer with its own dimensions (a transformed frame). -/
structure Canvas where
  w : ℕ
  h : ℕ
  px : ℕ → ℕ → RGBA

/-- A crop rectangle, absolute pixel corner coordinates (may be negative or
beyond the canvas). -/
structure CropBox where
  x0 : ℤ
  y0 : ℤ
  x1 : ℤ
  y1 : ℤ
deriving DecidableEq

/-- The codec's `crop(box)` primitive: output size is the box size clamped at
zero; pixels whose source coordinate falls outside the image extent are filled
with empty (zero) pixels rather than raising. -/
def pilCrop (c : Canvas) (b : CropBox) : Canvas where
  w := (b.x1 - b.x0).toNat
  h := (b.y1 - b.y0).toNat
  px := fun i j =>
    if 0 ≤ b.x0 + (i : ℤ) ∧ b.x0 + (i : ℤ) < (c.w : ℤ) ∧
        0 ≤ b.y0 + (j : ℤ) ∧ b.y0 + (j : ℤ) < (c.h : ℤ) then
      c.px (b.x0 + (i : ℤ)).toNat (b.y0 + (j : ℤ)).toNat
    else RGBA.clear

/-- The codec's `round_aspect(number, key)` helper inside `thumbnail`:
`max(min(floor(number), ceil(number), key=key), 1)` — pick floor or ceil of the
exact aspect-preserving value by the key (floor on ties, as Python's `min`
keeps the first argument), then clamp to at least 1. -/
def roundAspect (q : ℚ) (key : ℤ → ℚ) : ℕ :=
  (max (if key ⌊q⌋ ≤ key ⌈q⌉ then ⌊q⌋ else ⌈q⌉) 1).toNat

/-- The size computation of the codec's `Image.thumbnail(size)`: return the own
size unchanged when it already fits the target, otherwise shrink the larger
relative dimension to the target and round the other to preserve the aspect
ratio.  Python float arithmetic is modelled by exact rationals. -/
def pilThumbnailSize (w h tx ty : ℕ) : ℕ × ℕ :=
  if w ≤ tx ∧ h ≤ ty then (w, h)
  else
    if (w : ℚ) / (h : ℚ) ≤ (tx : ℚ) / (ty : ℚ) then
      (roundAspect ((ty : ℚ) * ((w : ℚ) / (h : ℚ)))
        (fun n => |(w : ℚ) / (h : ℚ) - (n : ℚ) / (ty : ℚ)|), ty)
    else
      (tx, roundAspect ((tx : ℚ) / ((w : ℚ) / (h : ℚ)))
        (fun n => if n = 0 then 0 else |(w : ℚ) / (h : ℚ) - (tx : ℚ) / (n : ℚ)|))

/-- The codec's `resize` to a requested size.  Only the output dimensions are
relied on by any claim; the pixel content under the external resampling filter
is modelled as nearest sampling. -/
def pilResize (c : Canvas) (s : ℕ × ℕ) : Canvas where
  w := s.1
  h := s.2
  px := fun i j => c.px (i * c.w / s.1) (j * c.h / s.2)

/-- The codec's `Image.thumbnail(size)`: no-op when the image already fits the
target, else resize down to the aspect-preserving size. -/
def pilThumbnail (c : Canvas) (tx ty : ℕ) : Canvas :=
  if c.w ≤ tx ∧ c.h ≤ ty then c else pilResize c (pilThumbnailSize c.w c.h tx ty)

/-- The codec's `ImageOps.fit(img, size, method, centering=...)`: output is
exactly the requested size.  As with `pilResize`, only the output dimensions
are relied on by any claim; content is modelled as nearest sampling. -/
def pilFit (c : Canvas) (tx ty : ℕ) (centering : ℚ × ℚ) : Canvas where
  w := tx
  h := ty
  px := fun i j => c.px (i * c.w / tx) (j * c.h / ty)

/-- `DefaultImageProcessingFactory.make_thumbnail(size)`: thumbnail the single
frame in place and return it; no validation of the requested size occurs. -/
def DefaultImageProcessingFactory.make_thumbnail (img : Canvas) (sz : ℕ × ℕ) : Canvas :=
  pilThumbnail img sz.1 sz.2

/-- `DefaultImageProcessingFactory.crop(size, centering)`: fit-crop the single
frame to exactly the requested size. -/
def DefaultImageProcessingFactory.crop (img : Canvas) (sz : ℕ × ℕ)
    (centering : ℚ × ℚ) : Canvas :=
  pilFit img sz.1 sz.2 centering

/-- `thumbnails(img, size, centering=None)`: composite every frame exactly as
`clone_gif_thumbnails` does, then fit-crop (when a centering is given) or
thumbnail each composited frame. -/
def thumbnails (img : AnimImage) (sz : ℕ × ℕ) (centering : Option (ℚ × ℚ)) : List Canvas :=
  (compositeList img.globalPal (analyseImage img) (initCanvas img) img.frames).map
    (fun gr =>
      match centering with
      | some ctr => pilFit ⟨img.width, img.height, gr⟩ sz.1 sz.2 ctr
      | none => pilThumbnail ⟨img.width, img.height, gr⟩ sz.1 sz.2)

/-- `cropped_thumbnails(img, box)`: composite every frame exactly as
`clone_gif_thumbnails` does, then crop each composited frame to the box. -/
def cropped_thumbnails (img : AnimImage) (box : CropBox) : List Canvas :=
  (compositeList img.globalPal (analyseImage img) (initCanvas img) img.frames).map
    (fun gr => pilCrop ⟨img.width, img.height, gr⟩ box)

/-- The record of one `om.save(...)` call of the animated factory: the fixed
encoder options, the encoded frame sequence (base frame followed by the
appended images), the metadata kwargs, and the `om.info` assignment when one
was made.  Byte serialization itself is the external codec's work. -/
structure GifSave where
  format : String
  optimize : Bool
  save_all : Bool
  frames : List Canvas
  duration : Option (List ℕ)
  loop : Option ℕ
  base_info : Option ImgInfo

/-- `AnimatedGifImageProcessingFactory.crop(size, centering)`: thumbnail every
composited frame with centering, then encode as GIF carrying the source's
duration and loop metadata. -/
def AnimatedGifImageProcessingFactory.crop (img : AnimImage) (sz : ℕ × ℕ)
    (centering : ℚ × ℚ) : GifSave where
  format := "gif"
  optimize := true
  save_all := true
  frames := thumbnails img sz (some centering)
  duration := img.info.duration
  loop := img.info.loop
  base_info := none

/-- `AnimatedGifImageProcessingFactory.arbitrary_cropping(size, box)`: crop
every composited frame to the box (the `size` argument is unused by the code),
then encode as GIF carrying the source's duration and loop metadata. -/
def AnimatedGifImageProcessingFactory.arbitrary_cropping (img : AnimImage)
    (sz : ℕ × ℕ) (box : CropBox) : GifSave where
  format := "gif"
  optimize := true
  save_all := true
  frames := cropped_thumbnails img box
  duration := img.info.duration
  loop := img.info.loop
  base_info := none

/-- `AnimatedGifImageProcessingFactory.make_thumbnail(size)`: thumbnail every
composited frame, then encode as GIF carrying the source's duration and loop
metadata. -/
def AnimatedGifImageProcessingFactory.make_thumbnail (img : AnimImage)
    (sz : ℕ × ℕ) : GifSave where
  format := "gif"
  optimize := true
  save_all := true
  frames := thumbnails img sz none
  duration := img.info.duration
  loop := img.info.loop
  base_info := none

/-- `AnimatedGifImageProcessingFactory.save_to_the_buffer(compression_format, quality, **img_info)`:
re-composite the frames unchanged and encode as GIF with fixed options; the
compression format, quality and extra encoder options are ignored. -/
def AnimatedGifImageProcessingFactory.save_to_the_buffer (img : AnimImage)
    (compression_format : String) (quality : ℕ)
    (img_info : List (String × String)) : GifSave where
  format := "gif"
  optimize := true
  save_all := true
  frames := (clone_gif_thumbnails img).map (fun gr => ⟨img.width, img.height, gr⟩)
  duration := img.info.duration
  loop := img.info.loop
  base_info := some img.info

/-- The factory the dispatcher picks. -/
inductive FactoryKind
  | animatedGif
  | defaultFactory
deriving DecidableEq

/-- ASCII lower-casing of one character, as Python's `str.lower()` does on the
format tags at hand. -/
def charLower (c : Char) : Char :=
  if 65 ≤ c.toNat ∧ c.toNat ≤ 90 then Char.ofNat (c.toNat + 32) else c

/-- `img.format.lower()`. -/
def strLower (s : String) : String := String.mk (s.data.map charLower)

/-- `make_factory_for_image_processing(img)`: the animated factory only for a
GIF-format image with more than one frame, the default factory otherwise. -/
def make_factory_for_image_processing (img : AnimImage) : FactoryKind :=
  if strLower img.format = "gif" then
    if 1 < img.frames.length then FactoryKind.animatedGif
    else FactoryKind.defaultFactory
  else FactoryKind.defaultFactory

/-- Every color of a palette fits in bytes. -/
def PalBounded (p : Pal) : Prop := ∀ c ∈ p, c.Bounded

instance (p : Pal) : Decidable (PalBounded p) := List.decidableBAll _ p

/-- Every palette the image can convert a frame with has byte-ranged colors. -/
def ImgBounded (img : AnimImage) : Prop :=
  PalBounded img.globalPal ∧ ∀ f ∈ img.frames, PalBounded (effPal img.globalPal f)

instance (img : AnimImage) : Decidable (ImgBounded img) := by
  unfold ImgBounded
  exact inferInstance

/-- A grid is byte-ranged at every coordinate. -/
def GridBounded (gr : Grid) : Prop := ∀ x y, (gr x y).Bounded

/-- Indexing into a composited-frame list (default: a transparent canvas). -/
def nthGrid (l : List Grid) (i : ℕ) : Grid := l.getD i clearGrid

/-- The frame used when indexing beyond a frame list. -/
def defaultRawFrame : RawFrame := { pal := none, pix := fun _ _ => 0, tile := none }

/-- Indexing into a frame list. -/
def nthFrame (l : List RawFrame) (i : ℕ) : RawFrame := l.getD i defaultRawFrame

/-- Indexing into a transformed-frame list (default: an empty canvas). -/
def nthCanvas (l : List Canvas) (i : ℕ) : Canvas := l.getD i ⟨0, 0, fun _ _ => RGBA.clear⟩

/-- Aspect preservation within rounding tolerance: either the size is
unchanged, or one coordinate equals its target and the other is the floor or
the ceiling of the exact aspect-preserving value, clamped to at least 1. -/
def AspectRounded (w h tx ty : ℕ) (s : ℕ × ℕ) : Prop :=
  s = (w, h) ∨
  (s.2 = ty ∧ ((s.1 : ℤ) = max ⌊((ty * w : ℕ) : ℚ) / (h : ℚ)⌋ 1 ∨
      (s.1 : ℤ) = max ⌈((ty * w : ℕ) : ℚ) / (h : ℚ)⌉ 1)) ∨
  (s.1 = tx ∧ ((s.2 : ℤ) = max ⌊((tx * h : ℕ) : ℚ) / (w : ℚ)⌋ 1 ∨
      (s.2 : ℤ) = max ⌈((tx * h : ℕ) : ℚ) / (w : ℚ)⌉ 1))

/-- The claim's thumbnail contract for an input of size `(w, h)` and a target
`(tx, ty)`: the output `s` is bounded by the target, never upscales, leaves an
already-fitting input at its own dimensions, and preserves the aspect ratio
up to rounding. -/
def ThumbnailSpec (w h tx ty : ℕ) (s : ℕ × ℕ) : Prop :=
  s.1 ≤ tx ∧ s.2 ≤ ty ∧ s.1 ≤ w ∧ s.2 ≤ h ∧
  (w ≤ tx → h ≤ ty → s = (w, h)) ∧ AspectRounded w h tx ty s

/-- Two-frame partial-mode witness animation on a 2x1 canvas: frame 0 covers
the whole canvas, frame 1 declares only the left pixel and is transparent at
the right pixel. -/
def imgW1 : AnimImage where
  width := 2
  height := 1
  globalPal := [⟨255, 0, 0, 255⟩, ⟨0, 0, 0, 0⟩]
  frames :=
    [{ pal := none, pix := fun _ _ => 0, tile := some ⟨0, 0, 2, 1⟩ },
     { pal := none, pix := fun x _ => if x = 0 then 0 else 1, tile := some ⟨0, 0, 1, 1⟩ }]
  info := { duration := some [100, 100], loop := some 0 }
  format := "gif"

/-- Animation whose frame 1 has a genuinely partial tile box `(5,5,10,10)`
anchored at the canvas's bottom-right corner on a 10x10 canvas. -/
def imgC2 : AnimImage where
  width := 10
  height := 10
  globalPal := [⟨255, 255, 255, 255⟩]
  frames :=
    [{ pal := none, pix := fun _ _ => 0, tile := some ⟨0, 0, 10, 10⟩ },
     { pal := none, pix := fun _ _ => 0, tile := some ⟨5, 5, 10, 10⟩ }]
  info := { duration := some [100, 100], loop := some 0 }
  format := "gif"

/-- Two-frame full-mode witness animation on a 2x1 canvas whose frames carry a
transparent pixel with a non-zero palette color underneath at `(1, 0)` and an
opaque pixel at `(0, 0)`. -/
def imgW3 : AnimImage where
  width := 2
  height := 1
  globalPal := [⟨9, 9, 9, 255⟩, ⟨5, 0, 0, 0⟩]
  frames :=
    [{ pal := none, pix := fun x _ => if x = 0 then 0 else 1, tile := some ⟨0, 0, 2, 1⟩ },
     { pal := none, pix := fun x _ => if x = 0 then 0 else 1, tile := some ⟨0, 0, 2, 1⟩ }]
  info := { duration := some [100, 100], loop := some 0 }
  format := "gif"

/-- Two-frame non-GIF (WEBP-tagged) image for the dispatcher. -/
def imgW4 : AnimImage where
  width := 2
  height := 1
  globalPal := [⟨255, 255, 255, 255⟩]
  frames := [defaultRawFrame, defaultRawFrame]
  info := { duration := some [100, 100], loop := some 0 }
  format := "webp"

/-- The single frame of `imgW5`: declares only the left pixel; at the right
pixel it is transparent with the non-zero palette color `(7,0,0)` underneath. -/
def frameW5 : RawFrame :=
  { pal := none, pix := fun x _ => if x = 0 then 0 else 1, tile := some ⟨0, 0, 1, 1⟩ }

/-- Single-frame partial-mode witness animation on a 2x1 canvas. -/
def imgW5 : AnimImage where
  width := 2
  height := 1
  globalPal := [⟨255, 0, 0, 255⟩, ⟨7, 0, 0, 0⟩]
  frames := [frameW5]
  info := { duration := none, loop := none }
  format := "gif"

/-- Single-frame full-mode opaque animation on a 2x2 canvas. -/
def imgW7 : AnimImage where
  width := 2
  height := 2
  globalPal := [⟨10, 20, 30, 255⟩]
  frames := [{ pal := none, pix := fun _ _ => 0, tile := some ⟨0, 0, 2, 2⟩ }]
  info := { duration := some [100], loop := some 0 }
  format := "gif"

/-- A crop box hanging over the right edge of a 2x2 canvas. -/
def boxW7 : CropBox := ⟨1, 0, 4, 2⟩

/-- A 200x100 single frame, the spec's thumbnail scenario input. -/
def c200 : Canvas := ⟨200, 100, fun _ _ => ⟨0, 0, 0, 0⟩⟩

/-- A 3x2 single frame for the target-size validation claim. -/
def c9img : Canvas := ⟨3, 2, fun _ _ => ⟨1, 2, 3, 255⟩⟩

/-! Arithmetic facts about the codec's blending macros. -/

theorem muldiv255_zero_right (x : ℕ) : muldiv255 x 0 = 0 := by
  simp [muldiv255]

theorem muldiv255_255_right (x : ℕ) (hx : x ≤ 255) : muldiv255 x 255 = x := by
  have h : ∀ y < 256, muldiv255 y 255 = y := by decide
  exact h x (by omega)

theorem muldiv255_255_left (m : ℕ) (hm : m ≤ 255) : muldiv255 255 m = m := by
  have h : ∀ y < 256, muldiv255 255 y = y := by decide
  exact h m (by omega)

theorem muldiv255_mono_left (x x2 m : ℕ) (h : x ≤ x2) :
    muldiv255 x m ≤ muldiv255 x2 m := by
  unfold muldiv255
  have ht : x * m + 128 ≤ x2 * m + 128 :=
    Nat.add_le_add_right (Nat.mul_le_mul_right m h) 128
  exact Nat.div_le_div_right (Nat.add_le_add (Nat.div_le_div_right ht) ht)

theorem blend_zero (d s : ℕ) (hd : d ≤ 255) : blend 0 d s = d := by
  unfold blend
  rw [muldiv255_zero_right, Nat.sub_zero, muldiv255_255_right d hd]
  omega

theorem blend_255 (d s : ℕ) (hs : s ≤ 255) : blend 255 d s = s := by
  unfold blend
  rw [Nat.sub_self, muldiv255_zero_right, muldiv255_255_right s hs]
  omega

theorem blend_le (m d s : ℕ) (hm : m ≤ 255) (hd : d ≤ 255) (hs : s ≤ 255) :
    blend m d s ≤ 255 := by
  unfold blend
  have h1 : muldiv255 d (255 - m) ≤ 255 - m :=
    le_trans (muldiv255_mono_left d 255 _ hd) (le_of_eq (muldiv255_255_left _ (by omega)))
  have h2 : muldiv255 s m ≤ m :=
    le_trans (muldiv255_mono_left s 255 _ hs) (le_of_eq (muldiv255_255_left _ hm))
  omega

theorem blendPx_zero (d s : RGBA) (hd : d.Bounded) : blendPx 0 d s = d := by
  obtain ⟨h1, h2, h3, h4⟩ := hd
  unfold blendPx
  rw [blend_zero _ _ h1, blend_zero _ _ h2, blend_zero _ _ h3, blend_zero _ _ h4]

theorem blendPx_255 (d s : RGBA) (hs : s.Bounded) : blendPx 255 d s = s := by
  obtain ⟨h1, h2, h3, h4⟩ := hs
  unfold blendPx
  rw [blend_255 _ _ h1, blend_255 _ _ h2, blend_255 _ _ h3, blend_255 _ _ h4]

theorem blendPx_bounded (m : ℕ) (d s : RGBA) (hm : m ≤ 255) (hd : d.Bounded)
    (hs : s.Bounded) : (blendPx m d s).Bounded := by
  obtain ⟨d1, d2, d3, d4⟩ := hd
  obtain ⟨s1, s2, s3, s4⟩ := hs
  exact ⟨blend_le m _ _ hm d1 s1, blend_le m _ _ hm d2 s2,
    blend_le m _ _ hm d3 s3, blend_le m _ _ hm d4 s4⟩

theorem pasteMask_src_clear (dest src : Grid) (x y : ℕ)
    (ha : (src x y).a = 0) (hd : (dest x y).Bounded) :
    pasteMask dest src x y = dest x y := by
  unfold pasteMask
  rw [ha]
  exact blendPx_zero _ _ hd

theorem pasteMask_src_opaque (dest src : Grid) (x y : ℕ)
    (ha : (src x y).a = 255) (hs : (src x y).Bounded) :
    pasteMask dest src x y = src x y := by
  unfold pasteMask
  rw [ha]
  exact blendPx_255 _ _ hs

/-! Facts about palettes, conversion and compositing. -/

theorem palGet_bounded (p : Pal) (h : PalBounded p) (i : ℕ) : (palGet p i).Bounded := by
  unfold palGet
  by_cases hi : i < p.length
  · rw [List.getD_eq_getElem p _ hi]
    exact h _ (List.getElem_mem hi)
  · rw [List.getD_eq_default p _ (by omega)]
    decide

theorem convFrame_bounded (g : Pal) (f : RawFrame) (h : PalBounded (effPal g f)) :
    GridBounded (convFrame g f) :=
  fun x y => palGet_bounded _ h _

theorem initCanvas_bounded (img : AnimImage) (h : PalBounded img.globalPal) :
    GridBounded (initCanvas img) := by
  intro x y
  unfold initCanvas
  cases hfr : img.frames with
  | nil =>
    show RGBA.clear.Bounded
    decide
  | cons f fs =>
    exact palGet_bounded _ h _

theorem compositeStep_bounded (g : Pal) (mo : String) (last : Grid) (f : RawFrame)
    (hl : GridBounded last) (hf : GridBounded (convFrame g f)) :
    GridBounded (compositeStep g mo last f) := by
  intro x y
  unfold compositeStep pasteMask
  refine blendPx_bounded _ _ _ (hf x y).2.2.2 ?_ (hf x y)
  unfold newFrameBase
  split
  · exact hl x y
  · show RGBA.clear.Bounded
    decide

theorem compositeList_length (g : Pal) (mo : String) (fs : List RawFrame) :
    ∀ last, (compositeList g mo last fs).length = fs.length := by
  induction fs with
  | nil => intro last; rfl
  | cons f fs ih =>
    intro last
    simp only [compositeList, List.length_cons, ih]

theorem compositeList_head (g : Pal) (mo : String) (last : Grid) (f : RawFrame)
    (fs : List RawFrame) :
    nthGrid (compositeList g mo last (f :: fs)) 0 = compositeStep g mo last f := rfl

theorem compositeList_get_succ (g : Pal) (mo : String) (fs : List RawFrame) :
    ∀ last i, i + 1 < fs.length →
      nthGrid (compositeList g mo last fs) (i + 1) =
        compositeStep g mo (nthGrid (compositeList g mo last fs) i) (nthFrame fs (i + 1)) := by
  induction fs with
  | nil => intro last i h; simp at h
  | cons f fs ih =>
    intro last i h
    cases i with
    | zero =>
      cases fs with
      | nil => simp at h
      | cons f1 fs1 => rfl
    | succ i =>
      have h2 : i + 1 < fs.length := by
        simp only [List.length_cons] at h
        omega
      have := ih (compositeStep g mo last f) i h2
      simpa [nthGrid, nthFrame, compositeList] using this

theorem compositeList_bounded (g : Pal) (mo : String) (fs : List RawFrame)
    (hconv : ∀ f ∈ fs, GridBounded (convFrame g f)) :
    ∀ last, GridBounded last → ∀ i, GridBounded (nthGrid (compositeList g mo last fs) i) := by
  induction fs with
  | nil =>
    intro last hl i x y
    show RGBA.clear.Bounded
    decide
  | cons f fs ih =>
    intro last hl i
    have hstep : GridBounded (compositeStep g mo last f) :=
      compositeStep_bounded g mo last f hl (hconv f (by simp))
    cases i with
    | zero => simpa [nthGrid, compositeList] using hstep
    | succ i =>
      have := ih (fun f2 hf2 => hconv f2 (by simp [hf2])) (compositeStep g mo last f) hstep i
      simpa [nthGrid, compositeList] using this

theorem compositeStep_partial_keep (g : Pal) (last : Grid) (f : RawFrame) (x y : ℕ)
    (ha : (convFrame g f x y).a = 0) (hd : (last x y).Bounded) :
    compositeStep g "partial" last f x y = last x y := by
  unfold compositeStep newFrameBase
  rw [if_pos rfl]
  exact pasteMask_src_clear _ _ _ _ ha hd

theorem compositeStep_opaque (g : Pal) (mo : String) (last : Grid) (f : RawFrame)
    (x y : ℕ) (ha : (convFrame g f x y).a = 255) (hs : (convFrame g f x y).Bounded) :
    compositeStep g mo last f x y = convFrame g f x y := by
  unfold compositeStep
  exact pasteMask_src_opaque _ _ _ _ ha hs

theorem nthFrame_mem (l : List RawFrame) (i : ℕ) (h : i < l.length) :
    nthFrame l i ∈ l := by
  unfold nthFrame
  rw [List.getD_eq_getElem l _ h]
  exact List.getElem_mem h

/-! Claim theorems: compositor, analyser, dispatcher and encoder. -/

/-- C1: for every Partial-mode animation whose decoded frames are transparent
outside their declared update regions (the spec's RawFrame model: a frame's
pixel data exists only inside its region), the composited frame `i+1` agrees
with the composited frame `i` at every canvas coordinate outside frame
`i+1`'s declared update region: the running canvas is pasted first, and the
current frame's paste keeps the destination wherever its own alpha mask is 0. -/
theorem clone_gif_partial_carry (img : AnimImage)
    (hmode : analyseImage img = "partial")
    (hb : ImgBounded img)
    (hclear : ∀ f ∈ img.frames, ∀ x < img.width, ∀ y < img.height,
      ¬ inRegion f.tile x y → (convFrame img.globalPal f x y).a = 0)
    (i x y : ℕ) (hi : i + 1 < img.frames.length)
    (hx : x < img.width) (hy : y < img.height)
    (hout : ¬ inRegion (nthFrame img.frames (i + 1)).tile x y) :
    nthGrid (clone_gif_thumbnails img) (i + 1) x y =
      nthGrid (clone_gif_thumbnails img) i x y := by
  have hconv : ∀ f ∈ img.frames, GridBounded (convFrame img.globalPal f) :=
    fun f hf => convFrame_bounded _ _ (hb.2 f hf)
  have hinit : GridBounded (initCanvas img) := initCanvas_bounded img hb.1
  unfold clone_gif_thumbnails
  rw [compositeList_get_succ img.globalPal (analyseImage img) img.frames (initCanvas img) i hi]
  rw [hmode]
  exact compositeStep_partial_keep _ _ _ x y
    (hclear _ (nthFrame_mem _ _ hi) x hx y hy hout)
    (compositeList_bounded _ _ _ hconv _ hinit i x y)

/-- Witness for C1 at a concrete two-frame partial-mode animation, at the
canvas coordinate `(1, 0)` outside frame 1's declared region. -/
theorem clone_gif_partial_carry_witness :
    analyseImage imgW1 = "partial" ∧
    nthGrid (clone_gif_thumbnails imgW1) 1 1 0 = nthGrid (clone_gif_thumbnails imgW1) 0 1 0 :=
  ⟨by decide, clone_gif_partial_carry imgW1 (by decide) (by decide) (by decide)
    0 1 0 (by decide) (by decide) (by decide) (by decide)⟩

/-- C3 counterexample: a Full-mode animation whose frame 0 has a transparent
pixel with a non-zero palette color underneath; the composited frame is the
frame pasted onto a fresh transparent canvas with its own alpha as mask, so at
that pixel the output is the clear pixel, not the frame's own RGBA value —
the Compositor's output is not literally the decoded frame sequence. -/
theorem clone_gif_full_not_pass_through :
    analyseImage imgW3 = "full" ∧
    nthGrid (clone_gif_thumbnails imgW3) 0 1 0 ≠
      convFrame imgW3.globalPal (nthFrame imgW3.frames 0) 1 0 := by
  decide

/-- C3 amended: for every Full-mode animation, no previous-canvas paste occurs —
each composited frame is the frame itself pasted over a transparent canvas
with its own alpha as mask — so at every pixel where the frame is fully
opaque (alpha 255) the composited pixel equals the frame's own pixel. -/
theorem clone_gif_full_passthrough (img : AnimImage)
    (hmode : analyseImage img = "full") (hb : ImgBounded img)
    (i x y : ℕ) (hi : i < img.frames.length)
    (ha : (convFrame img.globalPal (nthFrame img.frames i) x y).a = 255) :
    nthGrid (clone_gif_thumbnails img) i x y =
      convFrame img.globalPal (nthFrame img.frames i) x y := by
  have hsB : (convFrame img.globalPal (nthFrame img.frames i) x y).Bounded :=
    convFrame_bounded _ _ (hb.2 _ (nthFrame_mem _ _ hi)) x y
  unfold clone_gif_thumbnails
  cases i with
  | zero =>
    cases hfr : img.frames with
    | nil => rw [hfr] at hi; simp at hi
    | cons f fs =>
      rw [hfr] at ha hsB
      rw [compositeList_head]
      exact compositeStep_opaque _ _ _ _ x y ha hsB
  | succ i =>
    rw [compositeList_get_succ img.globalPal (analyseImage img) img.frames (initCanvas img) i hi]
    exact compositeStep_opaque _ _ _ _ x y ha hsB

/-- Witness for C3's amended claim at a concrete full-mode animation, at the
fully opaque pixel `(0, 0)` of frame 0. -/
theorem clone_gif_full_passthrough_witness :
    analyseImage imgW3 = "full" ∧
    nthGrid (clone_gif_thumbnails imgW3) 0 0 0 =
      convFrame imgW3.globalPal (nthFrame imgW3.frames 0) 0 0 :=
  ⟨by decide, clone_gif_full_passthrough imgW3 (by decide) (by decide) 0 0 0
    (by decide) (by decide)⟩

/-- C5 counterexample: on a Partial-mode animation whose first frame is
transparent at `(1, 0)` with palette color `(7,0,0)` underneath, the code's
compositor (running canvas initialized to `img.convert('RGBA')`, the first
frame's conversion) yields `(7,0,0,0)` there, while the spec's variant
(running canvas initialized to a transparent canvas) yields the clear pixel:
the first frame is composited over its own RGBA conversion, not transparency. -/
theorem clone_gif_init_not_transparent :
    analyseImage imgW5 = "partial" ∧
    nthGrid (clone_gif_thumbnails imgW5) 0 1 0 = ⟨7, 0, 0, 0⟩ ∧
    nthGrid (clone_gif_thumbnails_spec_init imgW5) 0 1 0 = RGBA.clear := by
  decide

/-- C5 amended: the running canvas is initialized to the RGBA conversion of
the image's current (first) frame, so in Partial mode the first composited
frame shows, at every pixel where the frame's own alpha is 0, the first
frame's converted content rather than transparency. -/
theorem clone_gif_init_first_frame (img : AnimImage) (f : RawFrame) (fs : List RawFrame)
    (hf : img.frames = f :: fs)
    (hmode : analyseImage img = "partial") (hb : ImgBounded img)
    (x y : ℕ) (ha : (convFrame img.globalPal f x y).a = 0) :
    nthGrid (clone_gif_thumbnails img) 0 x y = palGet img.globalPal (f.pix x y) := by
  unfold clone_gif_thumbnails
  rw [hf, hmode]
  rw [compositeList_head]
  have hinit : initCanvas img = fun x2 y2 => palGet img.globalPal (f.pix x2 y2) := by
    unfold initCanvas
    rw [hf]
  rw [hinit]
  exact compositeStep_partial_keep _ _ _ x y ha (palGet_bounded _ hb.1 _)

/-- Witness for C5's amended claim at the concrete single-frame partial-mode
animation. -/
theorem clone_gif_init_first_frame_witness :
    analyseImage imgW5 = "partial" ∧
    nthGrid (clone_gif_thumbnails imgW5) 0 1 0 = palGet imgW5.globalPal (frameW5.pix 1 0) :=
  ⟨by decide, clone_gif_init_first_frame imgW5 frameW5 [] rfl (by decide) (by decide)
    1 0 (by decide)⟩

/-- C2 (code-bug evidence): `imgC2`'s frame 1 declares the tile box
`(5, 5, 10, 10)` — an update region measuring 5x5 on the 10x10 canvas, a
genuinely partial frame — yet the analyser reports `"full"`: the code's
`update_region_dimensions = update_region[2:]` takes the box's lower-right
corner `(x1, y1)` (here equal to the canvas size) instead of the region's
dimensions, so a partial frame anchored at the bottom-right corner is missed. -/
theorem analyseImage_misses_bottom_right_region :
    analyseImage imgC2 = "full" ∧
    (nthFrame imgC2.frames 1).tile = some ⟨5, 5, 10, 10⟩ ∧
    boxDims ⟨5, 5, 10, 10⟩ ≠ (imgC2.width, imgC2.height) := by
  decide

/-- C4 counterexample: a two-frame image whose format tag is `"webp"` is
routed to the default (single-frame) factory although its frame count
exceeds 1 — the routing decision also depends on the format tag. -/
theorem dispatcher_multiframe_nongif_default :
    make_factory_for_image_processing imgW4 = FactoryKind.defaultFactory ∧
    1 < imgW4.frames.length := by
  decide

/-- C4 amended: the dispatcher routes through the animated path exactly when
the image's format tag lowercases to `"gif"` AND its frame count exceeds 1;
otherwise it routes through the single-frame path. -/
theorem make_factory_animated_iff (img : AnimImage) :
    make_factory_for_image_processing img = FactoryKind.animatedGif ↔
      (strLower img.format = "gif" ∧ 1 < img.frames.length) := by
  unfold make_factory_for_image_processing
  split
  · split
    · simp_all
    · simp_all
  · simp_all

/-- C8: every `save(...)` call of the animated factory passes
`duration=self.img.info.get('duration')` and `loop=self.img.info.get('loop')`
straight from the source animation's metadata — present values are carried
verbatim and absent values are carried as absent. -/
theorem animated_metadata_verbatim (img : AnimImage) (sz : ℕ × ℕ) (ctr : ℚ × ℚ)
    (box : CropBox) (cf : String) (q : ℕ) (extra : List (String × String)) :
    ((AnimatedGifImageProcessingFactory.crop img sz ctr).duration = img.info.duration ∧
      (AnimatedGifImageProcessingFactory.crop img sz ctr).loop = img.info.loop) ∧
    ((AnimatedGifImageProcessingFactory.arbitrary_cropping img sz box).duration = img.info.duration ∧
      (AnimatedGifImageProcessingFactory.arbitrary_cropping img sz box).loop = img.info.loop) ∧
    ((AnimatedGifImageProcessingFactory.make_thumbnail img sz).duration = img.info.duration ∧
      (AnimatedGifImageProcessingFactory.make_thumbnail img sz).loop = img.info.loop) ∧
    ((AnimatedGifImageProcessingFactory.save_to_the_buffer img cf q extra).duration = img.info.duration ∧
      (AnimatedGifImageProcessingFactory.save_to_the_buffer img cf q extra).loop = img.info.loop) :=
  ⟨⟨rfl, rfl⟩, ⟨rfl, rfl⟩, ⟨rfl, rfl⟩, ⟨rfl, rfl⟩⟩

/-- C10: the animated factory's `save_to_the_buffer` ignores its
`compression_format`, `quality` and extra encoder-option arguments — any two
argument choices produce the same encoded output — and always encodes as GIF
with the fixed options `optimize=True, save_all=True`. -/
theorem save_to_the_buffer_ignores_args (img : AnimImage) (cf1 cf2 : String)
    (q1 q2 : ℕ) (e1 e2 : List (String × String)) :
    AnimatedGifImageProcessingFactory.save_to_the_buffer img cf1 q1 e1 =
      AnimatedGifImageProcessingFactory.save_to_the_buffer img cf2 q2 e2 ∧
    (AnimatedGifImageProcessingFactory.save_to_the_buffer img cf1 q1 e1).format = "gif" ∧
    (AnimatedGifImageProcessingFactory.save_to_the_buffer img cf1 q1 e1).optimize = true ∧
    (AnimatedGifImageProcessingFactory.save_to_the_buffer img cf1 q1 e1).save_all = true :=
  ⟨rfl, rfl, rfl, rfl⟩

/-- C7: every output frame of `cropped_thumbnails` has exactly the crop box's
dimensions (clamped at zero, as the codec's crop primitive does), regardless
of the source canvas size; and every output pixel whose source coordinate
falls outside the image extent is the empty pixel — crop pads instead of
raising. -/
theorem cropped_thumbnails_dims_pad (img : AnimImage) (box : CropBox) (i : ℕ)
    (hi : i < (cropped_thumbnails img box).length) :
    ((nthCanvas (cropped_thumbnails img box) i).w = (box.x1 - box.x0).toNat ∧
      (nthCanvas (cropped_thumbnails img box) i).h = (box.y1 - box.y0).toNat) ∧
    ∀ a b2 : ℕ,
      ¬ (0 ≤ box.x0 + (a : ℤ) ∧ box.x0 + (a : ℤ) < (img.width : ℤ) ∧
          0 ≤ box.y0 + (b2 : ℤ) ∧ box.y0 + (b2 : ℤ) < (img.height : ℤ)) →
      (nthCanvas (cropped_thumbnails img box) i).px a b2 = RGBA.clear := by
  have hi2 : i < ((compositeList img.globalPal (analyseImage img) (initCanvas img)
      img.frames).map (fun gr => pilCrop ⟨img.width, img.height, gr⟩ box)).length := hi
  have hlen : i < (compositeList img.globalPal (analyseImage img) (initCanvas img)
      img.frames).length := by
    simpa using hi2
  have hnth : nthCanvas (cropped_thumbnails img box) i =
      pilCrop ⟨img.width, img.height,
        (compositeList img.globalPal (analyseImage img) (initCanvas img)
          img.frames).getD i clearGrid⟩ box := by
    unfold nthCanvas cropped_thumbnails
    rw [List.getD_eq_getElem _ _ hi2, List.getElem_map, List.getD_eq_getElem _ _ hlen]
  rw [hnth]
  refine ⟨⟨rfl, rfl⟩, ?_⟩
  intro a b2 hout
  dsimp only [pilCrop]
  rw [if_neg hout]

/-- Witness for C7 at a 2x2 single-frame animation with a crop box hanging
over the right edge: the output is exactly 3x2 and the hanging column is
filled with empty pixels. -/
theorem cropped_thumbnails_dims_pad_witness :
    ((nthCanvas (cropped_thumbnails imgW7 boxW7) 0).w = 3 ∧
      (nthCanvas (cropped_thumbnails imgW7 boxW7) 0).h = 2) ∧
    (nthCanvas (cropped_thumbnails imgW7 boxW7) 0).px 2 0 = RGBA.clear := by
  have h := cropped_thumbnails_dims_pad imgW7 boxW7 0 (by decide)
  exact ⟨⟨h.1.1, h.1.2⟩, h.2 2 0 (by decide)⟩

/-! The thumbnail size computation: C6 and C9. -/

theorem roundAspect_le (q : ℚ) (key : ℤ → ℚ) (n : ℕ) (h1 : 1 ≤ n)
    (hc : ⌈q⌉ ≤ (n : ℤ)) : roundAspect q key ≤ n := by
  unfold roundAspect
  have hf : ⌊q⌋ ≤ ⌈q⌉ := Int.floor_le_ceil q
  have hp : (if key ⌊q⌋ ≤ key ⌈q⌉ then ⌊q⌋ else ⌈q⌉) ≤ (n : ℤ) := by
    split
    · omega
    · exact hc
  have hm : max (if key ⌊q⌋ ≤ key ⌈q⌉ then ⌊q⌋ else ⌈q⌉) 1 ≤ (n : ℤ) :=
    max_le hp (by exact_mod_cast h1)
  exact Int.toNat_le.mpr hm

theorem roundAspect_eq_floor_or_ceil (q : ℚ) (key : ℤ → ℚ) :
    ((roundAspect q key : ℕ) : ℤ) = max ⌊q⌋ 1 ∨
      ((roundAspect q key : ℕ) : ℤ) = max ⌈q⌉ 1 := by
  unfold roundAspect
  split
  · left
    exact Int.toNat_of_nonneg (le_trans zero_le_one (le_max_right _ _))
  · right
    exact Int.toNat_of_nonneg (le_trans zero_le_one (le_max_right _ _))

theorem pilThumbnailSize_spec (w h tx ty : ℕ) (hw : 1 ≤ w) (hh : 1 ≤ h)
    (htx : 1 ≤ tx) (hty : 1 ≤ ty) :
    ThumbnailSpec w h tx ty (pilThumbnailSize w h tx ty) := by
  have hw0 : (0 : ℚ) < (w : ℚ) := by exact_mod_cast (by omega : 0 < w)
  have hh0 : (0 : ℚ) < (h : ℚ) := by exact_mod_cast (by omega : 0 < h)
  have htx0 : (0 : ℚ) < (tx : ℚ) := by exact_mod_cast (by omega : 0 < tx)
  have hty0 : (0 : ℚ) < (ty : ℚ) := by exact_mod_cast (by omega : 0 < ty)
  by_cases hearly : w ≤ tx ∧ h ≤ ty
  · have hs : pilThumbnailSize w h tx ty = (w, h) := by
      unfold pilThumbnailSize
      rw [if_pos hearly]
    rw [hs]
    exact ⟨hearly.1, hearly.2, le_refl w, le_refl h, fun _ _ => rfl, Or.inl rfl⟩
  · by_cases hbr : (w : ℚ) / (h : ℚ) ≤ (tx : ℚ) / (ty : ℚ)
    · have hs : pilThumbnailSize w h tx ty =
          (roundAspect ((ty : ℚ) * ((w : ℚ) / (h : ℚ)))
            (fun n => |(w : ℚ) / (h : ℚ) - (n : ℚ) / (ty : ℚ)|), ty) := by
        unfold pilThumbnailSize
        rw [if_neg hearly, if_pos hbr]
      have htyh : ty < h := by
        by_contra hcon
        push_neg at hcon
        have hwx : w * ty ≤ tx * h := by
          have := (div_le_div_iff₀ hh0 hty0).mp hbr
          exact_mod_cast this
        have htxw : tx < w := by
          by_contra h2
          push_neg at h2
          exact hearly ⟨h2, hcon⟩
        have c1 : w * h ≤ w * ty := mul_le_mul_of_nonneg_left hcon (Nat.zero_le w)
        have c2 : tx * h < w * h := mul_lt_mul_of_pos_right htxw (by omega)
        exact lt_irrefl (w * h) (lt_of_le_of_lt (le_trans c1 hwx) c2)
      have hq : (ty : ℚ) * ((w : ℚ) / (h : ℚ)) = ((ty * w : ℕ) : ℚ) / (h : ℚ) := by
        push_cast
        ring
      have hceil_tx : ⌈(ty : ℚ) * ((w : ℚ) / (h : ℚ))⌉ ≤ (tx : ℤ) := by
        rw [Int.ceil_le]
        push_cast
        calc (ty : ℚ) * ((w : ℚ) / (h : ℚ))
            ≤ (ty : ℚ) * ((tx : ℚ) / (ty : ℚ)) :=
              mul_le_mul_of_nonneg_left hbr (le_of_lt hty0)
          _ = (tx : ℚ) := by
              field_simp
      have hceil_w : ⌈(ty : ℚ) * ((w : ℚ) / (h : ℚ))⌉ ≤ (w : ℤ) := by
        rw [Int.ceil_le]
        push_cast
        have hle1 : (ty : ℚ) / (h : ℚ) ≤ 1 := by
          rw [div_le_one hh0]
          exact_mod_cast le_of_lt htyh
        calc (ty : ℚ) * ((w : ℚ) / (h : ℚ))
            = (w : ℚ) * ((ty : ℚ) / (h : ℚ)) := by ring
          _ ≤ (w : ℚ) * 1 := mul_le_mul_of_nonneg_left hle1 (le_of_lt hw0)
          _ = (w : ℚ) := mul_one _
      rw [hs]
      unfold ThumbnailSpec AspectRounded
      dsimp only
      refine ⟨roundAspect_le _ _ tx htx hceil_tx, le_refl ty,
        roundAspect_le _ _ w hw hceil_w, le_of_lt htyh, ?_, ?_⟩
      · intro h1 h2
        exact absurd ⟨h1, h2⟩ hearly
      · right; left
        refine ⟨rfl, ?_⟩
        rcases roundAspect_eq_floor_or_ceil ((ty : ℚ) * ((w : ℚ) / (h : ℚ)))
            (fun n => |(w : ℚ) / (h : ℚ) - (n : ℚ) / (ty : ℚ)|) with hc | hc
        · left
          rw [← hq]
          exact hc
        · right
          rw [← hq]
          exact hc
    · have hs : pilThumbnailSize w h tx ty =
          (tx, roundAspect ((tx : ℚ) / ((w : ℚ) / (h : ℚ)))
            (fun n => if n = 0 then 0
              else |(w : ℚ) / (h : ℚ) - (tx : ℚ) / (n : ℚ)|)) := by
        unfold pilThumbnailSize
        rw [if_neg hearly, if_neg hbr]
      have hbr2 : (tx : ℚ) / (ty : ℚ) < (w : ℚ) / (h : ℚ) := not_le.mp hbr
      have ha0 : (0 : ℚ) < (w : ℚ) / (h : ℚ) := div_pos hw0 hh0
      have htxw : tx < w := by
        by_contra hcon
        push_neg at hcon
        have htyh2 : ty < h := by
          by_contra h2
          push_neg at h2
          exact hearly ⟨hcon, h2⟩
        have hlt : tx * h < w * ty := by
          have := (div_lt_div_iff₀ hty0 hh0).mp hbr2
          exact_mod_cast this
        have c1 : w * ty ≤ tx * ty := mul_le_mul_of_nonneg_right hcon (Nat.zero_le ty)
        have c2 : tx * ty < tx * h := mul_lt_mul_of_pos_left htyh2 (by omega)
        exact lt_irrefl (tx * h) (lt_of_lt_of_le (lt_of_lt_of_le hlt (le_trans c1 (le_of_lt c2))) (le_refl _))
      have hq2 : (tx : ℚ) / ((w : ℚ) / (h : ℚ)) = ((tx * h : ℕ) : ℚ) / (w : ℚ) := by
        push_cast
        rw [div_div_eq_mul_div]
      have hceil_ty : ⌈(tx : ℚ) / ((w : ℚ) / (h : ℚ))⌉ ≤ (ty : ℤ) := by
        rw [Int.ceil_le]
        push_cast
        have h1 : (tx : ℚ) < ((w : ℚ) / (h : ℚ)) * (ty : ℚ) := (div_lt_iff₀ hty0).mp hbr2
        have h2 : (tx : ℚ) / ((w : ℚ) / (h : ℚ)) < (ty : ℚ) := by
          rw [div_lt_iff₀ ha0, mul_comm]
          exact h1
        exact le_of_lt h2
      have hceil_h : ⌈(tx : ℚ) / ((w : ℚ) / (h : ℚ))⌉ ≤ (h : ℤ) := by
        rw [Int.ceil_le]
        push_cast
        have hle1 : (tx : ℚ) / (w : ℚ) ≤ 1 := by
          rw [div_le_one hw0]
          exact_mod_cast le_of_lt htxw
        have heq : (tx : ℚ) / ((w : ℚ) / (h : ℚ)) = (h : ℚ) * ((tx : ℚ) / (w : ℚ)) := by
          rw [div_div_eq_mul_div]
          ring
        rw [heq]
        calc (h : ℚ) * ((tx : ℚ) / (w : ℚ)) ≤ (h : ℚ) * 1 :=
              mul_le_mul_of_nonneg_left hle1 (le_of_lt hh0)
          _ = (h : ℚ) := mul_one _
      rw [hs]
      unfold ThumbnailSpec AspectRounded
      dsimp only
      refine ⟨le_refl tx, roundAspect_le _ _ ty hty hceil_ty, le_of_lt htxw,
        roundAspect_le _ _ h hh hceil_h, ?_, ?_⟩
      · intro h1 h2
        exact absurd ⟨h1, h2⟩ hearly
      · right; right
        refine ⟨rfl, ?_⟩
        rcases roundAspect_eq_floor_or_ceil ((tx : ℚ) / ((w : ℚ) / (h : ℚ)))
            (fun n => if n = 0 then 0
              else |(w : ℚ) / (h : ℚ) - (tx : ℚ) / (n : ℚ)|) with hc | hc
        · left
          rw [← hq2]
          exact hc
        · right
          rw [← hq2]
          exact hc

theorem make_thumbnail_size_eq (c : Canvas) (sz : ℕ × ℕ) :
    (DefaultImageProcessingFactory.make_thumbnail c sz).w =
      (pilThumbnailSize c.w c.h sz.1 sz.2).1 ∧
    (DefaultImageProcessingFactory.make_thumbnail c sz).h =
      (pilThumbnailSize c.w c.h sz.1 sz.2).2 := by
  unfold DefaultImageProcessingFactory.make_thumbnail pilThumbnail
  by_cases hfit : c.w ≤ sz.1 ∧ c.h ≤ sz.2
  · rw [if_pos hfit]
    unfold pilThumbnailSize
    rw [if_pos hfit]
    exact ⟨rfl, rfl⟩
  · rw [if_neg hfit]
    exact ⟨rfl, rfl⟩

/-- C6: for every input frame with positive dimensions and every positive
target size, the thumbnail operation's output is no larger than the target in
either dimension, never upscales, returns an already-fitting input at its own
dimensions, and preserves the aspect ratio within rounding tolerance (the
recomputed dimension is the floor or ceiling of the exact aspect-preserving
value, clamped to at least 1). -/
theorem make_thumbnail_shrinks (c : Canvas) (sz : ℕ × ℕ)
    (hw : 1 ≤ c.w) (hh : 1 ≤ c.h) (htx : 1 ≤ sz.1) (hty : 1 ≤ sz.2) :
    ThumbnailSpec c.w c.h sz.1 sz.2
      ((DefaultImageProcessingFactory.make_thumbnail c sz).w,
        (DefaultImageProcessingFactory.make_thumbnail c sz).h) := by
  have hb := make_thumbnail_size_eq c sz
  rw [hb.1, hb.2]
  exact pilThumbnailSize_spec c.w c.h sz.1 sz.2 hw hh htx hty

/-- Witness for C6: the spec's scenario — a 200x100 frame thumbnailed to
(100, 100) yields exactly 100x50 and satisfies the thumbnail contract. -/
theorem make_thumbnail_shrinks_witness :
    (DefaultImageProcessingFactory.make_thumbnail c200 (100, 100)).w = 100 ∧
    (DefaultImageProcessingFactory.make_thumbnail c200 (100, 100)).h = 50 ∧
    ThumbnailSpec c200.w c200.h 100 100
      ((DefaultImageProcessingFactory.make_thumbnail c200 (100, 100)).w,
        (DefaultImageProcessingFactory.make_thumbnail c200 (100, 100)).h) := by
  have hsize : pilThumbnailSize c200.w c200.h 100 100 = (100, 50) := by
    show pilThumbnailSize 200 100 100 100 = (100, 50)
    unfold pilThumbnailSize
    rw [if_neg (by omega)]
    have hbr : ¬ (((200 : ℕ) : ℚ) / ((100 : ℕ) : ℚ) ≤ ((100 : ℕ) : ℚ) / ((100 : ℕ) : ℚ)) := by
      push_cast
      norm_num
    rw [if_neg hbr]
    have hq : ((100 : ℕ) : ℚ) / (((200 : ℕ) : ℚ) / ((100 : ℕ) : ℚ)) = ((50 : ℤ) : ℚ) := by
      push_cast
      norm_num
    rw [hq]
    unfold roundAspect
    rw [Int.floor_intCast, Int.ceil_intCast]
    norm_num
    rfl
  have hb := make_thumbnail_size_eq c200 (100, 100)
  refine ⟨?_, ?_,
    make_thumbnail_shrinks c200 (100, 100) (by decide) (by decide) (by decide) (by decide)⟩
  · rw [hb.1]
    exact congrArg Prod.fst hsize
  · rw [hb.2]
    exact congrArg Prod.snd hsize

/-- C9 counterexample: a request with target width 0 (≤ 0) is not rejected —
`make_thumbnail` runs the transform and returns an image whose width differs
from the input's: transform work is performed instead of raising an
InvalidTargetSize error (no such validation exists anywhere in the code). -/
theorem make_thumbnail_zero_target_still_processes :
    (DefaultImageProcessingFactory.make_thumbnail c9img (0, 5)).w ≠ c9img.w := by
  have h1 : DefaultImageProcessingFactory.make_thumbnail c9img (0, 5) =
      pilThumbnail c9img 0 5 := rfl
  rw [h1]
  unfold pilThumbnail
  have hno : ¬ (c9img.w ≤ 0 ∧ c9img.h ≤ 5) := by decide
  rw [if_neg hno]
  unfold pilResize pilThumbnailSize
  rw [if_neg hno]
  have hbr : ¬ ((c9img.w : ℚ) / (c9img.h : ℚ) ≤ ((0 : ℕ) : ℚ) / ((5 : ℕ) : ℚ)) := by
    show ¬ (((3 : ℕ) : ℚ) / ((2 : ℕ) : ℚ) ≤ ((0 : ℕ) : ℚ) / ((5 : ℕ) : ℚ))
    push_cast
    norm_num
  rw [if_neg hbr]
  dsimp only
  decide

/-- C9 amended: the code performs no target-size validation; a non-positive
target flows straight into the underlying thumbnail primitive, which for a
zero target width on any non-degenerate frame produces a 0x1 output image
rather than an error. -/
theorem make_thumbnail_no_validation (c : Canvas) (ty : ℕ)
    (hw : 1 ≤ c.w) (hh : 1 ≤ c.h) (hy : 1 ≤ ty) :
    (DefaultImageProcessingFactory.make_thumbnail c (0, ty)).w = 0 ∧
    (DefaultImageProcessingFactory.make_thumbnail c (0, ty)).h = 1 := by
  have h1 : DefaultImageProcessingFactory.make_thumbnail c (0, ty) = pilThumbnail c 0 ty := rfl
  rw [h1]
  unfold pilThumbnail
  have hno : ¬ (c.w ≤ 0 ∧ c.h ≤ ty) := by omega
  rw [if_neg hno]
  unfold pilResize pilThumbnailSize
  rw [if_neg hno]
  have hcw : (0 : ℚ) < (c.w : ℚ) := by exact_mod_cast (by omega : 0 < c.w)
  have hch : (0 : ℚ) < (c.h : ℚ) := by exact_mod_cast (by omega : 0 < c.h)
  have hz : ((0 : ℕ) : ℚ) / ((ty : ℕ) : ℚ) = 0 := by norm_num
  have hbr : ¬ ((c.w : ℚ) / (c.h : ℚ) ≤ ((0 : ℕ) : ℚ) / ((ty : ℕ) : ℚ)) := by
    rw [hz]
    exact not_le.mpr (div_pos hcw hch)
  rw [if_neg hbr]
  refine ⟨rfl, ?_⟩
  show roundAspect (((0 : ℕ) : ℚ) / ((c.w : ℚ) / (c.h : ℚ)))
    (fun n => if n = 0 then 0
      else |(c.w : ℚ) / (c.h : ℚ) - ((0 : ℕ) : ℚ) / (n : ℚ)|) = 1
  have hz2 : ((0 : ℕ) : ℚ) / ((c.w : ℚ) / (c.h : ℚ)) = 0 := by norm_num
  rw [hz2]
  unfold roundAspect
  simp

/-- Witness for C9's amended claim at the concrete 3x2 frame with target (0, 5). -/
theorem make_thumbnail_no_validation_witness :
    (DefaultImageProcessingFactory.make_thumbnail c9img (0, 5)).w = 0 ∧
    (DefaultImageProcessingFactory.make_thumbnail c9img (0, 5)).h = 1 :=
  make_thumbnail_no_validation c9img 5 (by decide) (by decide) (by decide)
